import Mathlib

/-!
Verification of the cropsy batch image-cropping tool.

The geometry utilities (`clampRectToImage`, `defaultRect` from
`src/utils/geometry.ts`) operate on JavaScript numbers; we embed them over `ℚ`
with exact `min`/`max`/`floor` arithmetic.  The batch export handler
(`handleExport` in `src/App.tsx`) is embedded as a pure fold over a list of
per-file outcomes: each file either decodes to a bitmap with known dimensions
(and its canvas encoding yields a blob or not) or fails to decode
(`createImageBitmap` throws).  The file-listing helpers from
`src/utils/fileSystem.ts` are embedded on the level of filename lists.
-/

namespace Cropsy

/-- The `Rect` interface from `src/types.ts`: four numeric fields in
image-pixel coordinates. -/
structure Rect where
  x : ℚ
  y : ℚ
  width : ℚ
  height : ℚ
deriving DecidableEq, Repr

/-- `clampRectToImage` from `src/utils/geometry.ts`: cap width/height to the
image dimensions, clamp x/y into bounds, then force a minimum 1px size. -/
def clampRectToImage (rect : Rect) (imgWidth imgHeight : ℚ) : Rect :=
  let width := min rect.width imgWidth
  let height := min rect.height imgHeight
  let x := max 0 (min rect.x (imgWidth - width))
  let y := max 0 (min rect.y (imgHeight - height))
  { x := x, y := y, width := max 1 width, height := max 1 height }

/-- `defaultRect` from `src/utils/geometry.ts`: 25% offset, 50% size,
floored to integers. -/
def defaultRect (imgWidth imgHeight : ℚ) : Rect :=
  { x := ((⌊imgWidth * 0.25⌋ : ℤ) : ℚ)
    y := ((⌊imgHeight * 0.25⌋ : ℤ) : ℚ)
    width := ((⌊imgWidth * 0.5⌋ : ℤ) : ℚ)
    height := ((⌊imgHeight * 0.5⌋ : ℤ) : ℚ) }

/-- The containment invariant the spec states for a clamped rectangle:
non-negative position, at least 1×1, fully inside the image. -/
def clampInvariant (r : Rect) (imgWidth imgHeight : ℚ) : Prop :=
  0 ≤ r.x ∧ 0 ≤ r.y ∧ r.x + r.width ≤ imgWidth ∧ r.y + r.height ≤ imgHeight ∧
    1 ≤ r.width ∧ 1 ≤ r.height

instance (r : Rect) (imgWidth imgHeight : ℚ) :
    Decidable (clampInvariant r imgWidth imgHeight) := by
  unfold clampInvariant
  infer_instance

/-- Reference definition following the words of spec §4.1: width/height are
first capped to the image's width/height; x/y are then capped into
[0, dimension − clamped size]; finally width/height are floored at 1. -/
def clampRectSpec (rect : Rect) (imgWidth imgHeight : ℚ) : Rect :=
  let width' := min rect.width imgWidth
  let height' := min rect.height imgHeight
  { x := min (imgWidth - width') (max 0 rect.x)
    y := min (imgHeight - height') (max 0 rect.y)
    width := max 1 width'
    height := max 1 height' }

lemma clamp_x_spec (v b : ℚ) (hb : 0 ≤ b) : max 0 (min v b) = min b (max 0 v) := by
  rw [max_min_distrib_left, max_eq_right hb, min_comm]

/-- Invariant part: under the precondition that the input rectangle is at
least 1×1 and the image dimensions are at least 1, the clamped rectangle
satisfies the containment invariant. -/
lemma clamp_invariant_of (rect : Rect) (W H : ℚ)
    (hw : 1 ≤ rect.width) (hh : 1 ≤ rect.height) (hW : 1 ≤ W) (hH : 1 ≤ H) :
    clampInvariant (clampRectToImage rect W H) W H := by
  have hw1 : (1 : ℚ) ≤ min rect.width W := le_min hw hW
  have hh1 : (1 : ℚ) ≤ min rect.height H := le_min hh hH
  have hbW : (0 : ℚ) ≤ W - min rect.width W :=
    sub_nonneg.mpr (min_le_right _ _)
  have hbH : (0 : ℚ) ≤ H - min rect.height H :=
    sub_nonneg.mpr (min_le_right _ _)
  have hxb : max 0 (min rect.x (W - min rect.width W)) ≤ W - min rect.width W :=
    max_le hbW (min_le_right _ _)
  have hyb : max 0 (min rect.y (H - min rect.height H)) ≤ H - min rect.height H :=
    max_le hbH (min_le_right _ _)
  simp only [clampRectToImage, clampInvariant]
  refine ⟨le_max_left _ _, le_max_left _ _, ?_, ?_, le_max_left _ _, le_max_left _ _⟩
  · rw [max_eq_right hw1]
    linarith
  · rw [max_eq_right hh1]
    linarith

/-- Idempotence part: under the same precondition, clamping twice equals
clamping once. -/
lemma clamp_idem_of (rect : Rect) (W H : ℚ)
    (hw : 1 ≤ rect.width) (hh : 1 ≤ rect.height) (hW : 1 ≤ W) (hH : 1 ≤ H) :
    clampRectToImage (clampRectToImage rect W H) W H = clampRectToImage rect W H := by
  have hw1 : (1 : ℚ) ≤ min rect.width W := le_min hw hW
  have hh1 : (1 : ℚ) ≤ min rect.height H := le_min hh hH
  have hbW : (0 : ℚ) ≤ W - min rect.width W :=
    sub_nonneg.mpr (min_le_right _ _)
  have hbH : (0 : ℚ) ≤ H - min rect.height H :=
    sub_nonneg.mpr (min_le_right _ _)
  have hxb : max 0 (min rect.x (W - min rect.width W)) ≤ W - min rect.width W :=
    max_le hbW (min_le_right _ _)
  have hyb : max 0 (min rect.y (H - min rect.height H)) ≤ H - min rect.height H :=
    max_le hbH (min_le_right _ _)
  simp only [clampRectToImage]
  rw [max_eq_right hw1, max_eq_right hh1]
  rw [min_eq_left (min_le_right rect.width W), min_eq_left (min_le_right rect.height H)]
  rw [min_eq_left hxb, min_eq_left hyb]
  rw [max_eq_right (le_max_left 0 _), max_eq_right (le_max_left 0 _)]
  rw [max_eq_right hw1, max_eq_right hh1]

/-- C5: `clampRectToImage` equals the three-stage reference definition of
spec §4.1, for every input rectangle and all image dimensions. -/
theorem clampRectToImage_eq_spec (rect : Rect) (imgWidth imgHeight : ℚ) :
    clampRectToImage rect imgWidth imgHeight = clampRectSpec rect imgWidth imgHeight := by
  have hbW : (0 : ℚ) ≤ imgWidth - min rect.width imgWidth :=
    sub_nonneg.mpr (min_le_right _ _)
  have hbH : (0 : ℚ) ≤ imgHeight - min rect.height imgHeight :=
    sub_nonneg.mpr (min_le_right _ _)
  simp only [clampRectToImage, clampRectSpec]
  rw [clamp_x_spec _ _ hbW, clamp_x_spec _ _ hbH]

/-- C6: `defaultRect` places the rectangle at a 25% offset with 50% size,
floored; in particular `defaultRect 1000 1000 = {x := 250, y := 250,
width := 500, height := 500}`. -/
theorem defaultRect_quarter (imgWidth imgHeight : ℚ)
    (hW : 0 < imgWidth) (hH : 0 < imgHeight) :
    defaultRect imgWidth imgHeight =
      { x := ((⌊imgWidth * 0.25⌋ : ℤ) : ℚ), y := ((⌊imgHeight * 0.25⌋ : ℤ) : ℚ),
        width := ((⌊imgWidth * 0.5⌋ : ℤ) : ℚ), height := ((⌊imgHeight * 0.5⌋ : ℤ) : ℚ) } ∧
    defaultRect 1000 1000 = { x := 250, y := 250, width := 500, height := 500 } := by
  refine ⟨rfl, ?_⟩
  simp only [defaultRect]
  norm_num

/-- Witness for C6 at the concrete 1000×1000 input. -/
theorem defaultRect_quarter_witness :
    (0 : ℚ) < 1000 ∧ ((0 : ℚ) < 1000 ∧
      (defaultRect 1000 1000 =
        { x := ((⌊(1000 : ℚ) * 0.25⌋ : ℤ) : ℚ), y := ((⌊(1000 : ℚ) * 0.25⌋ : ℤ) : ℚ),
          width := ((⌊(1000 : ℚ) * 0.5⌋ : ℤ) : ℚ), height := ((⌊(1000 : ℚ) * 0.5⌋ : ℤ) : ℚ) } ∧
      defaultRect 1000 1000 = { x := 250, y := 250, width := 500, height := 500 })) :=
  ⟨by norm_num, by norm_num, defaultRect_quarter 1000 1000 (by norm_num) (by norm_num)⟩

/-- C1 counterexample: the containment invariant fails for an arbitrary input
rectangle even with positive image dimensions.  With rect = {x:100, y:0,
width:0, height:5} on a 100×100 image, the width is bumped to 1 only after x
was clamped against width 0, so x + width = 101 > 100. -/
theorem clampRect_c1_counterexample :
    (0 : ℚ) < 100 ∧
      ¬ clampInvariant (clampRectToImage { x := 100, y := 0, width := 0, height := 5 } 100 100)
          100 100 := by
  constructor
  · norm_num
  · intro hinv
    have hx : (clampRectToImage { x := 100, y := 0, width := 0, height := 5 } 100 100).x +
        (clampRectToImage { x := 100, y := 0, width := 0, height := 5 } 100 100).width ≤ 100 :=
      hinv.2.2.1
    norm_num [clampRectToImage] at hx

/-- C1 (amended): for every input rectangle with width ≥ 1 and height ≥ 1 and
image dimensions imgWidth ≥ 1 and imgHeight ≥ 1, the rectangle returned by
`clampRectToImage` satisfies 0 ≤ x, 0 ≤ y, x+width ≤ imgWidth,
y+height ≤ imgHeight, width ≥ 1 and height ≥ 1. -/
theorem clampRect_c1_invariant (rect : Rect) (imgWidth imgHeight : ℚ)
    (hw : 1 ≤ rect.width) (hh : 1 ≤ rect.height)
    (hW : 1 ≤ imgWidth) (hH : 1 ≤ imgHeight) :
    clampInvariant (clampRectToImage rect imgWidth imgHeight) imgWidth imgHeight :=
  clamp_invariant_of rect imgWidth imgHeight hw hh hW hH

/-- Witness for the amended C1 at a concrete input. -/
theorem clampRect_c1_invariant_witness :
    (1 : ℚ) ≤ (Rect.mk (-3) 7 120 50).width ∧ (1 : ℚ) ≤ (Rect.mk (-3) 7 120 50).height ∧
      (1 : ℚ) ≤ 100 ∧ (1 : ℚ) ≤ 80 ∧
      clampInvariant (clampRectToImage (Rect.mk (-3) 7 120 50) 100 80) 100 80 :=
  ⟨by norm_num, by norm_num, by norm_num, by norm_num,
    clampRect_c1_invariant (Rect.mk (-3) 7 120 50) 100 80
      (by norm_num) (by norm_num) (by norm_num) (by norm_num)⟩

/-- C2 counterexample: idempotence fails for an arbitrary input rectangle
even with positive image dimensions.  With rect = {x:50, y:0, width:0,
height:3} on a 40×40 image, the first clamp returns {x:40, y:0, width:1,
height:3}; the second clamp moves x to 39. -/
theorem clampRect_c2_counterexample :
    (0 : ℚ) < 40 ∧
      clampRectToImage (clampRectToImage { x := 50, y := 0, width := 0, height := 3 } 40 40)
          40 40 ≠
        clampRectToImage { x := 50, y := 0, width := 0, height := 3 } 40 40 := by
  constructor
  · norm_num
  · intro heq
    have hx := congrArg Rect.x heq
    norm_num [clampRectToImage] at hx

/-- C2 (amended): for every rectangle with width ≥ 1 and height ≥ 1 and image
dimensions imgWidth ≥ 1 and imgHeight ≥ 1, `clampRectToImage` is idempotent. -/
theorem clampRect_c2_idempotent (rect : Rect) (imgWidth imgHeight : ℚ)
    (hw : 1 ≤ rect.width) (hh : 1 ≤ rect.height)
    (hW : 1 ≤ imgWidth) (hH : 1 ≤ imgHeight) :
    clampRectToImage (clampRectToImage rect imgWidth imgHeight) imgWidth imgHeight =
      clampRectToImage rect imgWidth imgHeight :=
  clamp_idem_of rect imgWidth imgHeight hw hh hW hH

/-- Witness for the amended C2 at a concrete input. -/
theorem clampRect_c2_idempotent_witness :
    (1 : ℚ) ≤ (Rect.mk 250 250 500 500).width ∧ (1 : ℚ) ≤ (Rect.mk 250 250 500 500).height ∧
      (1 : ℚ) ≤ 640 ∧ (1 : ℚ) ≤ 480 ∧
      clampRectToImage (clampRectToImage (Rect.mk 250 250 500 500) 640 480) 640 480 =
        clampRectToImage (Rect.mk 250 250 500 500) 640 480 :=
  ⟨by norm_num, by norm_num, by norm_num, by norm_num,
    clampRect_c2_idempotent (Rect.mk 250 250 500 500) 640 480
      (by norm_num) (by norm_num) (by norm_num) (by norm_num)⟩

/-- C10: for every input rectangle with width ≥ 1 and height ≥ 1 and all
positive integer image dimensions, the clamped rectangle satisfies the
containment invariant, and clamping is idempotent. -/
theorem clampRect_c10_precondition (rect : Rect) (imgWidth imgHeight : ℕ)
    (hw : 1 ≤ rect.width) (hh : 1 ≤ rect.height)
    (hW : 1 ≤ imgWidth) (hH : 1 ≤ imgHeight) :
    clampInvariant (clampRectToImage rect imgWidth imgHeight) imgWidth imgHeight ∧
      clampRectToImage (clampRectToImage rect imgWidth imgHeight) imgWidth imgHeight =
        clampRectToImage rect imgWidth imgHeight := by
  have hW' : (1 : ℚ) ≤ (imgWidth : ℚ) := by exact_mod_cast hW
  have hH' : (1 : ℚ) ≤ (imgHeight : ℚ) := by exact_mod_cast hH
  exact ⟨clamp_invariant_of rect imgWidth imgHeight hw hh hW' hH',
    clamp_idem_of rect imgWidth imgHeight hw hh hW' hH'⟩

/-- Witness for C10 at a concrete input. -/
theorem clampRect_c10_precondition_witness :
    (1 : ℚ) ≤ (Rect.mk 900 10 300 200).width ∧ (1 : ℚ) ≤ (Rect.mk 900 10 300 200).height ∧
      1 ≤ 1024 ∧ 1 ≤ 768 ∧
      (clampInvariant (clampRectToImage (Rect.mk 900 10 300 200) (1024 : ℕ) (768 : ℕ))
          (1024 : ℕ) (768 : ℕ) ∧
        clampRectToImage (clampRectToImage (Rect.mk 900 10 300 200) (1024 : ℕ) (768 : ℕ))
            (1024 : ℕ) (768 : ℕ) =
          clampRectToImage (Rect.mk 900 10 300 200) (1024 : ℕ) (768 : ℕ)) :=
  ⟨by norm_num, by norm_num, by norm_num, by norm_num,
    clampRect_c10_precondition (Rect.mk 900 10 300 200) 1024 768
      (by norm_num) (by norm_num) (by norm_num) (by norm_num)⟩

/-! ## Batch export (`handleExport` in `src/App.tsx`)

The export loop's effects on the browser (bitmap decoding, canvas drawing,
`toBlob` encoding, download triggering) are modelled by recording, for each
file, whether `createImageBitmap` succeeds (and with which bitmap dimensions)
and whether `canvas.toBlob` delivers a blob; the loop itself is embedded as a
fold accumulating the metadata object, the sequence of triggered downloads and
the sequence of progress updates.  The leading `window.confirm` guard is taken
as accepted. -/

/-- The outcome of processing a single file inside the per-file `try` block:
either the file resolves and decodes to a bitmap of the given dimensions
(`blobOk` records whether `canvas.toBlob` delivered a non-null blob), or
resolution/decoding throws. -/
inductive FileOutcome where
  | ok (width height : ℕ) (blobOk : Bool)
  | decodeFail
deriving DecidableEq, Repr

/-- A file of the exported folder: its name together with its outcome. -/
structure ExportFile where
  name : String
  outcome : FileOutcome
deriving DecidableEq, Repr

/-- A download triggered by `triggerDownload`: either a cropped image blob
(with the mime type and quality passed to `canvas.toBlob`) or the aggregate
metadata JSON. -/
inductive Download where
  | image (filename : String) (mime : String) (quality : ℚ)
  | json (filename : String) (entries : List (String × Rect))
deriving DecidableEq, Repr

/-- The observable state accumulated by `handleExport`: the
`exportedMetadata` object (as an ordered association list, matching JS object
key order), the downloads triggered so far, and the `setProgress` updates. -/
structure ExportAcc where
  metadata : List (String × Rect)
  downloads : List Download
  progressUpdates : List (ℕ × ℕ)
deriving DecidableEq, Repr

/-- JS object assignment `obj[k] = v`: replace the value at an existing key
in place, otherwise append the new key. -/
def setKey : List (String × Rect) → String → Rect → List (String × Rect)
  | [], k, v => [(k, v)]
  | p :: rest, k, v => if p.1 == k then (k, v) :: rest else p :: setKey rest k v

/-- JS object read `obj[k]`. -/
def getKey (m : List (String × Rect)) (k : String) : Option Rect :=
  (m.find? (fun p => p.1 == k)).map Prod.snd

/-- One iteration of the export loop (`i` is the 0-based loop index, `total`
the folder size): on success, re-clamp the folder's rectangle against this
image's actual dimensions, record it in the metadata, download the blob if
`toBlob` produced one; on failure, log and skip.  Either way the progress
counter is set to `(i+1, total)` at the end of the iteration. -/
def processOne (sharedRect : Rect) (total i : ℕ) (acc : ExportAcc) (f : ExportFile) :
    ExportAcc :=
  match f.outcome with
  | .decodeFail => { acc with progressUpdates := acc.progressUpdates ++ [(i + 1, total)] }
  | .ok w h blobOk =>
      let activeRect := clampRectToImage sharedRect (w : ℚ) (h : ℚ)
      { metadata := setKey acc.metadata f.name activeRect
        downloads := acc.downloads ++
          (if blobOk then [Download.image f.name "image/jpeg" 0.9] else [])
        progressUpdates := acc.progressUpdates ++ [(i + 1, total)] }

/-- The export loop over the remaining files, starting at loop index `i`. -/
def exportLoop (sharedRect : Rect) (total : ℕ) : ℕ → ExportAcc → List ExportFile → ExportAcc
  | _, acc, [] => acc
  | i, acc, f :: rest => exportLoop sharedRect total (i + 1) (processOne sharedRect total i acc f) rest

/-- `handleExport` from `src/App.tsx`, restricted to its observable effects:
with no files it reports "Nothing to export" and stops; otherwise it sets the
progress to (0, total), runs the loop, and finally downloads `crops.json`
holding the accumulated metadata. -/
def handleExport (sharedRect : Rect) (files : List ExportFile) : ExportAcc :=
  if files.isEmpty then { metadata := [], downloads := [], progressUpdates := [] }
  else
    let st := exportLoop sharedRect files.length 0
      { metadata := [], downloads := [], progressUpdates := [(0, files.length)] } files
    { st with downloads := st.downloads ++ [Download.json "crops.json" st.metadata] }

/-- The download a single file contributes: a cropped image under the
original filename, encoded as image/jpeg at quality 0.9, present exactly when
the file decoded and `toBlob` delivered a blob. -/
def imageDownload (f : ExportFile) : Option Download :=
  match f.outcome with
  | .ok _ _ true => some (Download.image f.name "image/jpeg" 0.9)
  | _ => none

/-- Whether the file decoded successfully (so the loop records metadata for it). -/
def isDecoded (f : ExportFile) : Bool :=
  match f.outcome with
  | .ok _ _ _ => true
  | .decodeFail => false

/-- Whether the file was fully processed: decoded and its blob downloaded. -/
def processedOk (f : ExportFile) : Bool :=
  match f.outcome with
  | .ok _ _ true => true
  | _ => false

/-- Whether the file's per-file processing failed. -/
def failed (f : ExportFile) : Bool :=
  match f.outcome with
  | .decodeFail => true
  | _ => false

/-- Whether a download is a cropped image (as opposed to the metadata JSON). -/
def isImageDownload : Download → Bool
  | .image _ _ _ => true
  | .json _ _ => false

lemma processOne_progress (r : Rect) (T i : ℕ) (acc : ExportAcc) (f : ExportFile) :
    (processOne r T i acc f).progressUpdates = acc.progressUpdates ++ [(i + 1, T)] := by
  rcases f with ⟨name, outcome⟩
  cases outcome <;> simp [processOne]

lemma processOne_downloads (r : Rect) (T i : ℕ) (acc : ExportAcc) (f : ExportFile) :
    (processOne r T i acc f).downloads = acc.downloads ++ (imageDownload f).toList := by
  rcases f with ⟨name, outcome⟩
  rcases outcome with ⟨w, h, b⟩ | _
  · cases b <;> simp [processOne, imageDownload]
  · simp [processOne, imageDownload]

lemma processOne_metadata (r : Rect) (T i : ℕ) (acc : ExportAcc) (f : ExportFile) :
    (processOne r T i acc f).metadata =
      match f.outcome with
      | .ok w h _ => setKey acc.metadata f.name (clampRectToImage r (w : ℚ) (h : ℚ))
      | .decodeFail => acc.metadata := by
  rcases f with ⟨name, outcome⟩
  rcases outcome with ⟨w, h, b⟩ | _ <;> simp [processOne]

lemma exportLoop_downloads (r : Rect) (T : ℕ) (fs : List ExportFile) :
    ∀ (i : ℕ) (acc : ExportAcc),
      (exportLoop r T i acc fs).downloads = acc.downloads ++ fs.filterMap imageDownload := by
  induction fs with
  | nil => intro i acc; simp [exportLoop]
  | cons f rest ih =>
      intro i acc
      rw [exportLoop, ih, processOne_downloads, List.filterMap_cons]
      rcases h : imageDownload f with _ | d <;> simp [h]

lemma exportLoop_progress (r : Rect) (T : ℕ) (fs : List ExportFile) :
    ∀ (i : ℕ) (acc : ExportAcc),
      (exportLoop r T i acc fs).progressUpdates =
        acc.progressUpdates ++ (List.range' (i + 1) fs.length).map (fun j => (j, T)) := by
  induction fs with
  | nil => intro i acc; simp [exportLoop]
  | cons f rest ih =>
      intro i acc
      rw [exportLoop, ih, processOne_progress, List.length_cons, List.range'_succ]
      simp

lemma setKey_getKey_self (m : List (String × Rect)) (k : String) (v : Rect) :
    getKey (setKey m k v) k = some v := by
  induction m with
  | nil => simp [setKey, getKey, List.find?]
  | cons p rest ih =>
      by_cases h : p.1 = k
      · simp [setKey, getKey, List.find?, h]
      · simp only [setKey, beq_iff_eq, h, if_false]
        simpa [getKey, List.find?_cons, h] using ih

lemma setKey_getKey_ne (m : List (String × Rect)) (j k : String) (v : Rect) (h : j ≠ k) :
    getKey (setKey m j v) k = getKey m k := by
  have hjk : (j == k) = false := beq_eq_false_iff_ne.mpr h
  induction m with
  | nil => simp [setKey, getKey, List.find?, hjk]
  | cons p rest ih =>
      by_cases hp : p.1 = j
      · simp [setKey, getKey, List.find?, hp, hjk]
      · simp only [setKey, beq_iff_eq, hp, if_false]
        by_cases hk : p.1 = k
        · simp [getKey, List.find?_cons, hk]
        · simpa [getKey, List.find?_cons, hk] using ih

lemma setKey_append_of_not_mem (m : List (String × Rect)) (k : String) (v : Rect)
    (h : k ∉ m.map Prod.fst) :
    setKey m k v = m ++ [(k, v)] := by
  induction m with
  | nil => simp [setKey]
  | cons p rest ih =>
      simp only [List.map_cons, List.mem_cons] at h
      push_neg at h
      have hne : (p.1 == k) = false := beq_eq_false_iff_ne.mpr (fun hp => h.1 hp.symm)
      simp [setKey, hne, ih h.2]

lemma exportLoop_getKey_of_not_mem (r : Rect) (T : ℕ) (fs : List ExportFile) (k : String)
    (hk : ∀ f ∈ fs, f.name ≠ k) :
    ∀ (i : ℕ) (acc : ExportAcc),
      getKey (exportLoop r T i acc fs).metadata k = getKey acc.metadata k := by
  induction fs with
  | nil => intro i acc; simp [exportLoop]
  | cons f rest ih =>
      intro i acc
      have hf : f.name ≠ k := hk f (List.mem_cons_self f rest)
      have hrest : ∀ g ∈ rest, g.name ≠ k := fun g hg => hk g (List.mem_cons_of_mem f hg)
      rw [exportLoop, ih hrest, processOne_metadata]
      rcases ho : f.outcome with ⟨w, h, b⟩ | _
      · exact setKey_getKey_ne _ _ _ _ hf
      · rfl

lemma exportLoop_getKey_of_mem (r : Rect) (T : ℕ) :
    ∀ (fs : List ExportFile), (fs.map ExportFile.name).Nodup →
      ∀ f ∈ fs, ∀ (w h : ℕ) (b : Bool), f.outcome = .ok w h b →
        ∀ (i : ℕ) (acc : ExportAcc),
          getKey (exportLoop r T i acc fs).metadata f.name =
            some (clampRectToImage r (w : ℚ) (h : ℚ)) := by
  intro fs
  induction fs with
  | nil => intro _ f hf; cases hf
  | cons g rest ih =>
      intro hnd f hf w h b ho i acc
      simp only [List.map_cons, List.nodup_cons] at hnd
      rcases List.mem_cons.mp hf with rfl | hmem
      · have hrest : ∀ g' ∈ rest, g'.name ≠ f.name := by
          intro g' hg' heq
          exact hnd.1 (heq ▸ List.mem_map_of_mem ExportFile.name hg')
        rw [exportLoop, exportLoop_getKey_of_not_mem r T rest f.name hrest,
          processOne_metadata, ho]
        exact setKey_getKey_self _ _ _
      · rw [exportLoop]
        exact ih hnd.2 f hmem w h b ho _ _

lemma exportLoop_metadata_keys (r : Rect) (T : ℕ) :
    ∀ (fs : List ExportFile), (fs.map ExportFile.name).Nodup →
      ∀ (i : ℕ) (acc : ExportAcc),
        (∀ f ∈ fs, f.name ∉ acc.metadata.map Prod.fst) →
        (exportLoop r T i acc fs).metadata.map Prod.fst =
          acc.metadata.map Prod.fst ++ (fs.filter isDecoded).map ExportFile.name := by
  intro fs
  induction fs with
  | nil => intro _ i acc _; simp [exportLoop]
  | cons g rest ih =>
      intro hnd i acc hacc
      simp only [List.map_cons, List.nodup_cons] at hnd
      rw [exportLoop]
      rcases ho : g.outcome with ⟨w, h, b⟩ | _
      · have hg : g.name ∉ acc.metadata.map Prod.fst := hacc g (List.mem_cons_self g rest)
        have hmeta : (processOne r T i acc g).metadata =
            acc.metadata ++ [(g.name, clampRectToImage r (w : ℚ) (h : ℚ))] := by
          rw [processOne_metadata, ho]
          exact setKey_append_of_not_mem _ _ _ hg
        have hacc' : ∀ f ∈ rest, f.name ∉ (processOne r T i acc g).metadata.map Prod.fst := by
          intro f hf
          rw [hmeta]
          simp only [List.map_append, List.mem_append, List.map_cons, List.map_nil,
            List.mem_singleton, not_or]
          refine ⟨hacc f (List.mem_cons_of_mem g hf), ?_⟩
          intro heq
          exact hnd.1 (heq ▸ List.mem_map_of_mem ExportFile.name hf)
        rw [ih hnd.2 _ _ hacc', hmeta]
        have hdec : isDecoded g = true := by simp [isDecoded, ho]
        rw [List.filter_cons_of_pos hdec]
        simp
      · have hmeta : (processOne r T i acc g).metadata = acc.metadata := by
          rw [processOne_metadata, ho]
        have hacc' : ∀ f ∈ rest, f.name ∉ (processOne r T i acc g).metadata.map Prod.fst := by
          intro f hf
          rw [hmeta]
          exact hacc f (List.mem_cons_of_mem g hf)
        rw [ih hnd.2 _ _ hacc', hmeta]
        have hdec : ¬ (isDecoded g = true) := by simp [isDecoded, ho]
        rw [List.filter_cons_of_neg hdec]

lemma length_filterMap_imageDownload (fs : List ExportFile) :
    (fs.filterMap imageDownload).length = (fs.filter processedOk).length := by
  induction fs with
  | nil => rfl
  | cons f rest ih =>
      rcases f with ⟨name, outcome⟩
      rcases outcome with ⟨w, h, b⟩ | _
      · cases b <;> simp [List.filterMap_cons, imageDownload, processedOk, ih]
      · simp [List.filterMap_cons, imageDownload, processedOk, ih]

lemma isDecoded_eq_not_failed (f : ExportFile) : isDecoded f = !failed f := by
  rcases f with ⟨name, outcome⟩
  rcases outcome with ⟨w, h, b⟩ | _ <;> rfl

lemma processedOk_eq_not_failed_of (f : ExportFile)
    (h : failed f = true ∨ processedOk f = true) : processedOk f = !failed f := by
  rcases f with ⟨name, outcome⟩
  rcases outcome with ⟨w, h', b⟩ | _
  · rcases h with h | h
    · exact absurd h (by simp [failed])
    · simp [processedOk] at h
      simp [processedOk, failed, h]
  · rfl

lemma length_filter_not_failed (fs : List ExportFile)
    (h1 : (fs.filter failed).length = 1) :
    (fs.filter (fun f => !failed f)).length = fs.length - 1 := by
  have := List.length_eq_length_filter_add (l := fs) failed
  omega

lemma handleExport_eq (sharedRect : Rect) (files : List ExportFile) (h : files ≠ []) :
    handleExport sharedRect files =
      { exportLoop sharedRect files.length 0
          { metadata := [], downloads := [], progressUpdates := [(0, files.length)] } files with
        downloads :=
          (exportLoop sharedRect files.length 0
            { metadata := [], downloads := [], progressUpdates := [(0, files.length)] }
            files).downloads ++
          [Download.json "crops.json"
            (exportLoop sharedRect files.length 0
              { metadata := [], downloads := [], progressUpdates := [(0, files.length)] }
              files).metadata] } := by
  cases files with
  | nil => exact absurd rfl h
  | cons f fs => simp [handleExport]

lemma getLast?_progress_list (n : ℕ) (hn : 1 ≤ n) :
    (((0, n) :: (List.range' 1 n).map (fun j => (j, n))) : List (ℕ × ℕ)).getLast? =
      some (n, n) := by
  obtain ⟨m, hm⟩ := Nat.exists_eq_add_of_le hn
  subst hm
  rw [Nat.add_comm 1 m, List.range'_concat, List.map_append]
  simp only [List.map_cons, List.map_nil]
  have h1 : 1 + 1 * m = m + 1 := by omega
  rw [h1, ← List.cons_append, List.getLast?_concat]

lemma handleExport_progress_eq (sharedRect : Rect) (files : List ExportFile)
    (h : files ≠ []) :
    (handleExport sharedRect files).progressUpdates =
      (0, files.length) :: (List.range' 1 files.length).map (fun j => (j, files.length)) := by
  rw [handleExport_eq sharedRect files h]
  rw [show ∀ st : ExportAcc, ∀ d, ({ st with downloads := d } : ExportAcc).progressUpdates =
      st.progressUpdates from fun _ _ => rfl]
  rw [exportLoop_progress]
  rfl

/-- C7: during export of a nonempty folder of T files, the progress counter
is set to (0, T) when the batch starts and then, after the i-th file
(1-based, whether it succeeded or failed), to (i, T): exactly one update per
file, ending at (T, T). -/
theorem export_progress_per_file (sharedRect : Rect) (files : List ExportFile)
    (h : files ≠ []) :
    (handleExport sharedRect files).progressUpdates =
      (0, files.length) :: (List.range' 1 files.length).map (fun j => (j, files.length)) :=
  handleExport_progress_eq sharedRect files h

/-- Witness for C7 on a concrete two-file folder. -/
theorem export_progress_per_file_witness :
    ([ExportFile.mk "a.png" (.ok 10 8 true), ExportFile.mk "b.png" .decodeFail] ≠
        ([] : List ExportFile)) ∧
      (handleExport (Rect.mk 0 0 5 5)
            [ExportFile.mk "a.png" (.ok 10 8 true), ExportFile.mk "b.png" .decodeFail]
          ).progressUpdates =
        (0, ([ExportFile.mk "a.png" (.ok 10 8 true),
              ExportFile.mk "b.png" .decodeFail] : List ExportFile).length) ::
          (List.range' 1 ([ExportFile.mk "a.png" (.ok 10 8 true),
              ExportFile.mk "b.png" .decodeFail] : List ExportFile).length).map
            (fun j => (j, ([ExportFile.mk "a.png" (.ok 10 8 true),
              ExportFile.mk "b.png" .decodeFail] : List ExportFile).length)) :=
  ⟨by simp,
    export_progress_per_file (Rect.mk 0 0 5 5)
      [ExportFile.mk "a.png" (.ok 10 8 true), ExportFile.mk "b.png" .decodeFail] (by simp)⟩

lemma handleExport_downloads_eq (sharedRect : Rect) (files : List ExportFile)
    (h : files ≠ []) :
    (handleExport sharedRect files).downloads =
      files.filterMap imageDownload ++
        [Download.json "crops.json" (handleExport sharedRect files).metadata] := by
  rw [handleExport_eq sharedRect files h]
  rw [show ∀ st : ExportAcc, ∀ d, ({ st with downloads := d } : ExportAcc).downloads = d from
    fun _ _ => rfl]
  rw [show ∀ st : ExportAcc, ∀ d, ({ st with downloads := d } : ExportAcc).metadata =
      st.metadata from fun _ _ => rfl]
  rw [exportLoop_downloads]
  rfl

/-- C8: the downloads triggered by a nonempty export are exactly one cropped
image per fully-processed file, under the original filename, always encoded
as image/jpeg at quality 0.9, followed by exactly one final `crops.json`
holding the accumulated metadata. -/
theorem export_downloads_shape (sharedRect : Rect) (files : List ExportFile)
    (h : files ≠ []) :
    (handleExport sharedRect files).downloads =
      files.filterMap imageDownload ++
        [Download.json "crops.json" (handleExport sharedRect files).metadata] :=
  handleExport_downloads_eq sharedRect files h

/-- Witness for C8 on a concrete folder with a failed file and a file whose
blob was not produced. -/
theorem export_downloads_shape_witness :
    ([ExportFile.mk "a.png" (.ok 10 8 true), ExportFile.mk "b.png" .decodeFail,
        ExportFile.mk "c.png" (.ok 7 9 false)] ≠ ([] : List ExportFile)) ∧
      (handleExport (Rect.mk 0 0 5 5)
            [ExportFile.mk "a.png" (.ok 10 8 true), ExportFile.mk "b.png" .decodeFail,
              ExportFile.mk "c.png" (.ok 7 9 false)]).downloads =
        ([ExportFile.mk "a.png" (.ok 10 8 true), ExportFile.mk "b.png" .decodeFail,
            ExportFile.mk "c.png" (.ok 7 9 false)] : List ExportFile).filterMap imageDownload ++
          [Download.json "crops.json"
            (handleExport (Rect.mk 0 0 5 5)
              [ExportFile.mk "a.png" (.ok 10 8 true), ExportFile.mk "b.png" .decodeFail,
                ExportFile.mk "c.png" (.ok 7 9 false)]).metadata] :=
  ⟨by simp,
    export_downloads_shape (Rect.mk 0 0 5 5)
      [ExportFile.mk "a.png" (.ok 10 8 true), ExportFile.mk "b.png" .decodeFail,
        ExportFile.mk "c.png" (.ok 7 9 false)] (by simp)⟩

/-- C4: for every file that decodes during export (in a folder with distinct
filenames), the metadata recorded under that file's name is the folder's
shared rectangle re-clamped against that image's actual dimensions; the
recorded value is a `Rect`, i.e. has exactly the fields x, y, width, height. -/
theorem export_metadata_reclamped (sharedRect : Rect) (files : List ExportFile)
    (fname : String) (w h : ℕ) (b : Bool)
    (hnd : (files.map ExportFile.name).Nodup)
    (hmem : ExportFile.mk fname (.ok w h b) ∈ files) :
    getKey (handleExport sharedRect files).metadata fname =
      some (clampRectToImage sharedRect (w : ℚ) (h : ℚ)) := by
  have hne : files ≠ [] := by
    intro he
    rw [he] at hmem
    cases hmem
  rw [handleExport_eq sharedRect files hne]
  rw [show ∀ st : ExportAcc, ∀ d, ({ st with downloads := d } : ExportAcc).metadata =
      st.metadata from fun _ _ => rfl]
  exact exportLoop_getKey_of_mem sharedRect files.length files hnd
    (ExportFile.mk fname (.ok w h b)) hmem w h b rfl 0 _

/-- Witness for C4 on a concrete folder whose images differ in size. -/
theorem export_metadata_reclamped_witness :
    (([ExportFile.mk "a.png" (.ok 30 20 true), ExportFile.mk "b.png" (.ok 400 300 true)] :
          List ExportFile).map ExportFile.name).Nodup ∧
      ExportFile.mk "b.png" (.ok 400 300 true) ∈
        ([ExportFile.mk "a.png" (.ok 30 20 true), ExportFile.mk "b.png" (.ok 400 300 true)] :
          List ExportFile) ∧
      getKey (handleExport (Rect.mk 250 250 500 500)
          [ExportFile.mk "a.png" (.ok 30 20 true),
            ExportFile.mk "b.png" (.ok 400 300 true)]).metadata "b.png" =
        some (clampRectToImage (Rect.mk 250 250 500 500) ((400 : ℕ) : ℚ) ((300 : ℕ) : ℚ)) :=
  ⟨by decide, by decide,
    export_metadata_reclamped (Rect.mk 250 250 500 500)
      [ExportFile.mk "a.png" (.ok 30 20 true), ExportFile.mk "b.png" (.ok 400 300 true)]
      "b.png" 400 300 true (by decide) (by decide)⟩

lemma handleExport_metadata_keys (sharedRect : Rect) (files : List ExportFile)
    (h : files ≠ []) (hnd : (files.map ExportFile.name).Nodup) :
    (handleExport sharedRect files).metadata.map Prod.fst =
      (files.filter isDecoded).map ExportFile.name := by
  rw [handleExport_eq sharedRect files h]
  rw [show ∀ st : ExportAcc, ∀ d, ({ st with downloads := d } : ExportAcc).metadata =
      st.metadata from fun _ _ => rfl]
  have := exportLoop_metadata_keys sharedRect files.length files hnd 0
    { metadata := [], downloads := [], progressUpdates := [(0, files.length)] }
    (by intro f _; simp)
  simpa using this

/-- C3: exporting a folder with distinct filenames in which exactly one file
fails per-file processing (`createImageBitmap` throws) and every other file
processes successfully yields N-1 metadata entries, N-1 cropped-image
downloads, a final `crops.json` download carrying exactly those entries, and
a progress counter that reaches N of N: the batch completes. -/
theorem export_skips_failed_file (sharedRect : Rect) (files : List ExportFile)
    (hnd : (files.map ExportFile.name).Nodup)
    (h1 : (files.filter failed).length = 1)
    (h2 : ∀ f ∈ files, failed f = true ∨ processedOk f = true) :
    (handleExport sharedRect files).metadata.length = files.length - 1 ∧
      ((handleExport sharedRect files).downloads.filter isImageDownload).length =
        files.length - 1 ∧
      (handleExport sharedRect files).downloads.getLast? =
        some (Download.json "crops.json" (handleExport sharedRect files).metadata) ∧
      (handleExport sharedRect files).progressUpdates.getLast? =
        some (files.length, files.length) := by
  have hne : files ≠ [] := by
    intro he
    rw [he] at h1
    simp at h1
  have hlen : 1 ≤ files.length := by
    have := List.length_pos.mpr hne
    omega
  have hfilter_eq : files.filter isDecoded = files.filter (fun f => !failed f) :=
    List.filter_congr (fun f _ => isDecoded_eq_not_failed f)
  refine ⟨?_, ?_, ?_, ?_⟩
  · have hc := congrArg List.length (handleExport_metadata_keys sharedRect files hne hnd)
    rw [List.length_map, List.length_map, hfilter_eq,
      length_filter_not_failed files h1] at hc
    exact hc
  · have himg : (files.filterMap imageDownload).filter isImageDownload =
        files.filterMap imageDownload := by
      refine List.filter_eq_self.mpr ?_
      intro d hd
      rcases List.mem_filterMap.mp hd with ⟨f, _, hdf⟩
      rcases f with ⟨n, o⟩
      rcases o with ⟨w, h', b⟩ | _
      · cases b
        · simp [imageDownload] at hdf
        · simp only [imageDownload] at hdf
          rw [← Option.some.inj hdf]
          rfl
      · simp [imageDownload] at hdf
    rw [handleExport_downloads_eq sharedRect files hne, List.filter_append, himg]
    rw [show List.filter isImageDownload
        [Download.json "crops.json" (handleExport sharedRect files).metadata] = [] from rfl]
    rw [List.append_nil, length_filterMap_imageDownload]
    rw [List.filter_congr (fun f hf => processedOk_eq_not_failed_of f (h2 f hf))]
    exact length_filter_not_failed files h1
  · rw [handleExport_downloads_eq sharedRect files hne, List.getLast?_concat]
  · rw [handleExport_progress_eq sharedRect files hne]
    exact getLast?_progress_list files.length hlen

/-- Witness for C3: three files, the middle one undecodable. -/
theorem export_skips_failed_file_witness :
    (([ExportFile.mk "a.png" (.ok 10 8 true), ExportFile.mk "b.png" .decodeFail,
          ExportFile.mk "c.png" (.ok 7 9 true)] : List ExportFile).map ExportFile.name).Nodup ∧
      (([ExportFile.mk "a.png" (.ok 10 8 true), ExportFile.mk "b.png" .decodeFail,
          ExportFile.mk "c.png" (.ok 7 9 true)] : List ExportFile).filter failed).length = 1 ∧
      (∀ f ∈ ([ExportFile.mk "a.png" (.ok 10 8 true), ExportFile.mk "b.png" .decodeFail,
          ExportFile.mk "c.png" (.ok 7 9 true)] : List ExportFile),
        failed f = true ∨ processedOk f = true) ∧
      ((handleExport (Rect.mk 0 0 5 5)
            [ExportFile.mk "a.png" (.ok 10 8 true), ExportFile.mk "b.png" .decodeFail,
              ExportFile.mk "c.png" (.ok 7 9 true)]).metadata.length =
          ([ExportFile.mk "a.png" (.ok 10 8 true), ExportFile.mk "b.png" .decodeFail,
              ExportFile.mk "c.png" (.ok 7 9 true)] : List ExportFile).length - 1 ∧
        ((handleExport (Rect.mk 0 0 5 5)
              [ExportFile.mk "a.png" (.ok 10 8 true), ExportFile.mk "b.png" .decodeFail,
                ExportFile.mk "c.png" (.ok 7 9 true)]).downloads.filter
            isImageDownload).length =
          ([ExportFile.mk "a.png" (.ok 10 8 true), ExportFile.mk "b.png" .decodeFail,
              ExportFile.mk "c.png" (.ok 7 9 true)] : List ExportFile).length - 1 ∧
        (handleExport (Rect.mk 0 0 5 5)
            [ExportFile.mk "a.png" (.ok 10 8 true), ExportFile.mk "b.png" .decodeFail,
              ExportFile.mk "c.png" (.ok 7 9 true)]).downloads.getLast? =
          some (Download.json "crops.json"
            (handleExport (Rect.mk 0 0 5 5)
              [ExportFile.mk "a.png" (.ok 10 8 true), ExportFile.mk "b.png" .decodeFail,
                ExportFile.mk "c.png" (.ok 7 9 true)]).metadata) ∧
        (handleExport (Rect.mk 0 0 5 5)
            [ExportFile.mk "a.png" (.ok 10 8 true), ExportFile.mk "b.png" .decodeFail,
              ExportFile.mk "c.png" (.ok 7 9 true)]).progressUpdates.getLast? =
          some (([ExportFile.mk "a.png" (.ok 10 8 true), ExportFile.mk "b.png" .decodeFail,
              ExportFile.mk "c.png" (.ok 7 9 true)] : List ExportFile).length,
            ([ExportFile.mk "a.png" (.ok 10 8 true), ExportFile.mk "b.png" .decodeFail,
              ExportFile.mk "c.png" (.ok 7 9 true)] : List ExportFile).length)) :=
  ⟨by decide, by decide, by decide,
    export_skips_failed_file (Rect.mk 0 0 5 5)
      [ExportFile.mk "a.png" (.ok 10 8 true), ExportFile.mk "b.png" .decodeFail,
        ExportFile.mk "c.png" (.ok 7 9 true)] (by decide) (by decide) (by decide)⟩

/-! ## File listing (`src/utils/fileSystem.ts`)

`getImagesFromDirectory` and `processFilesFromInput` both filter names by a
fixed extension list and sort with
`localeCompare(undefined, { numeric: true, sensitivity: 'base' })`.  The
comparator is a browser API; its behaviour on these inputs is modelled from
the spec's contract.  Both functions are embedded at the level of the
filename sequences they produce (ids/handles carry no ordering
information). -/

/-- `IMAGE_EXTENSIONS` from `src/utils/fileSystem.ts`. -/
def IMAGE_EXTENSIONS : List String :=
  [".jpg", ".jpeg", ".png", ".webp", ".gif", ".bmp", ".svg"]

/-- The extension filter: the lower-cased name ends with one of the fixed
extensions. -/
def isImageName (name : String) : Bool :=
  IMAGE_EXTENSIONS.any (fun ext => ext.data.isSuffixOf (name.data.map Char.toLower))

/-- A token of a filename for numeric-aware comparison: a maximal digit run
(as its numeric value) or a single non-digit character. -/
inductive NameToken where
  | num (n : ℕ)
  | chr (c : Char)
deriving DecidableEq, Repr

/-- Modelled from the spec: tokenizer for the numeric-aware comparison
performed by the external `localeCompare(undefined, {numeric: true,
sensitivity: 'base'})` collaborator.  Maximal digit runs become number
tokens; other characters stand alone.  `pending` carries the value of the
digit run currently being read. -/
def tokenizeAux : Option ℕ → List Char → List NameToken
  | none, [] => []
  | some n, [] => [NameToken.num n]
  | none, c :: cs =>
      if c.isDigit then tokenizeAux (some (c.toNat - 48)) cs
      else NameToken.chr c :: tokenizeAux none cs
  | some n, c :: cs =>
      if c.isDigit then tokenizeAux (some (n * 10 + (c.toNat - 48))) cs
      else NameToken.num n :: NameToken.chr c :: tokenizeAux none cs

/-- Modelled from the spec: case-insensitive tokenization of a filename
(sensitivity 'base' is modelled as lower-case folding). -/
def nameTokens (s : String) : List NameToken :=
  tokenizeAux none (s.data.map Char.toLower)

/-- Modelled from the spec: ordering of two tokens — digit runs compare by
numeric value and order before single characters, characters compare by code
point. -/
def tokenCmp : NameToken → NameToken → Ordering
  | NameToken.num a, NameToken.num b => compare a b
  | NameToken.num _, NameToken.chr _ => Ordering.lt
  | NameToken.chr _, NameToken.num _ => Ordering.gt
  | NameToken.chr a, NameToken.chr b => compare a.toNat b.toNat

/-- Lexicographic extension of `tokenCmp` to token lists. -/
def tokensCmp : List NameToken → List NameToken → Ordering
  | [], [] => Ordering.eq
  | [], _ :: _ => Ordering.lt
  | _ :: _, [] => Ordering.gt
  | a :: as, b :: bs =>
      match tokenCmp a b with
      | Ordering.eq => tokensCmp as bs
      | o => o

/-- Modelled from the spec: the case-insensitive numeric-aware comparator
used to sort file listings. -/
def nameCmp (a b : String) : Ordering :=
  tokensCmp (nameTokens a) (nameTokens b)

/-- `a` sorts no later than `b` under the comparator. -/
def nameLe (a b : String) : Bool :=
  match nameCmp a b with
  | Ordering.gt => false
  | _ => true

/-- Stable insertion of a name into an already sorted list. -/
def insertName (x : String) : List String → List String
  | [] => [x]
  | y :: ys => if nameLe x y then x :: y :: ys else y :: insertName x ys

/-- Stable sort of a name list by the comparator (models
`Array.prototype.sort` with the `localeCompare` comparator, whose result on
pairwise-comparable distinct names is the unique sorted order). -/
def sortNames : List String → List String
  | [] => []
  | x :: xs => insertName x (sortNames xs)

/-- `getImagesFromDirectory` from `src/utils/fileSystem.ts`, at the level of
the filename sequence: keep the names of file entries with an image
extension, then sort with the comparator. -/
def getImagesFromDirectory (entries : List String) : List String :=
  sortNames (entries.filter isImageName)

/-- `processFilesFromInput` from `src/utils/fileSystem.ts`, at the level of
the filename sequence: identical filter and sort over the `FileList`. -/
def processFilesFromInput (fileNames : List String) : List String :=
  sortNames (fileNames.filter isImageName)

/-- C9: both file-listing functions sort case-insensitively and
numeric-aware; on ["img10.png", "img2.png", "IMG1.png"] they yield
["IMG1.png", "img2.png", "img10.png"]. -/
theorem fileListing_sort_order :
    getImagesFromDirectory ["img10.png", "img2.png", "IMG1.png"] =
        ["IMG1.png", "img2.png", "img10.png"] ∧
      processFilesFromInput ["img10.png", "img2.png", "IMG1.png"] =
        ["IMG1.png", "img2.png", "img10.png"] := by
  constructor <;> decide

end Cropsy
